import Mathlib

/-!
Shallow embedding of the storage-bench I/O core (src/config.rs,
src/io/patterns.rs, src/io/worker.rs, src/io/engine.rs, src/io/device.rs).

Machine integers: the counters and offsets are u64 in the source; they are
modelled as Nat with an explicit modulus U64 = 2^64 wherever a u64 addition
could wrap.  Clock readings and the pseudo-random source are effects: a
clock value enters a function as an argument, and the generator is a
deterministic stream of raw draws together with a position that advances on
every generation, as the concrete generator (rand StdRng) advances its
internal state on every call.  Floating-point results (the derived rates of
BenchmarkResults) are modelled as exact rationals; every theorem below that
compares them does so at values whose gap dwarfs any f64 rounding.
-/

/-- Modulus of u64 arithmetic: 2 to the 64. -/
def U64 : Nat := 2 ^ 64

/-- Largest u64 value, the initial min_latency_ns of WorkerStats. -/
def U64MAX : Nat := 2 ^ 64 - 1

/-- IoMode from src/config.rs. -/
inductive IoMode where
  | Sequential
  | Random
  | Mixed
deriving DecidableEq, Repr

/-- Workload from src/config.rs. -/
inductive Workload where
  | SeqRead
  | SeqWrite
  | RandRead
  | RandWrite
  | Seq
  | Rand
  | All
deriving DecidableEq, Repr

/-- Workload::read_percent from src/config.rs. -/
def Workload.read_percent : Workload → Nat
  | Workload.SeqRead => 100
  | Workload.RandRead => 100
  | Workload.SeqWrite => 0
  | Workload.RandWrite => 0
  | Workload.Seq => 50
  | Workload.Rand => 50
  | Workload.All => 50

/-- The From Workload for IoMode impl in src/config.rs. -/
def Workload.toIoMode : Workload → IoMode
  | Workload.SeqRead => IoMode.Sequential
  | Workload.SeqWrite => IoMode.Sequential
  | Workload.Seq => IoMode.Sequential
  | Workload.RandRead => IoMode.Random
  | Workload.RandWrite => IoMode.Random
  | Workload.Rand => IoMode.Random
  | Workload.All => IoMode.Sequential

/-- The pseudo-random source of an IoPattern (a rand StdRng behind a Mutex in
src/io/patterns.rs): a deterministic stream of raw draws plus the position of
the next draw.  Every generation reads the stream at the position and
advances the position; any value of the requested range is realised by a
suitable stream. -/
structure Rng where
  stream : Nat → Nat
  pos : Nat

/-- A gen_range call over the inclusive range 0..=max: a draw in [0, max];
the generator state advances. -/
def Rng.genRangeIncl (r : Rng) (max : Nat) : Nat × Rng :=
  (r.stream r.pos % (max + 1), ⟨r.stream, r.pos + 1⟩)

/-- A gen_range call over the half-open range 0..hi: a draw in [0, hi); the
generator state advances. -/
def Rng.genRangeLt (r : Rng) (hi : Nat) : Nat × Rng :=
  (r.stream r.pos % hi, ⟨r.stream, r.pos + 1⟩)

/-- A gen_bool(0.7) call: a Bernoulli draw, modelled as seven of ten residues
of a uniform draw; the generator state advances. -/
def Rng.genBool70 (r : Rng) : Bool × Rng :=
  (decide (r.stream r.pos % 10 < 7), ⟨r.stream, r.pos + 1⟩)

/-- IoPattern (src/io/patterns.rs): mode, block size, device size.  The
generator travels separately as an explicit Rng value. -/
structure IoPattern where
  mode : IoMode
  block_size : Nat
  device_size : Nat

/-- IoPattern::next_offset (src/io/patterns.rs lines 25-47).  Sequential:
current + block_size (u64 addition), wrapping to 0 when the sum reaches
device_size.  Random: gen_range(0..=device_size - block_size), the
subtraction saturating, with no rounding of the draw.  Mixed: gen_bool(0.7)
selects the sequential advance or the random draw. -/
def IoPattern.next_offset (p : IoPattern) (current : Nat) (rng : Rng) : Nat × Rng :=
  match p.mode with
  | IoMode.Sequential =>
      let next := (current + p.block_size) % U64
      (if p.device_size ≤ next then 0 else next, rng)
  | IoMode.Random =>
      rng.genRangeIncl (p.device_size - p.block_size)
  | IoMode.Mixed =>
      let b := rng.genBool70
      if b.1 then
        let next := (current + p.block_size) % U64
        (if p.device_size ≤ next then 0 else next, b.2)
      else
        b.2.genRangeIncl (p.device_size - p.block_size)

/-- IoPattern::is_read (src/io/patterns.rs lines 49-53): locks the generator
and returns gen_range(0..100) < read_percent.  The generator is consulted on
every call, whatever the percentage. -/
def IoPattern.is_read (p : IoPattern) (read_percent : Nat) (rng : Rng) : Bool × Rng :=
  let v := rng.genRangeLt 100
  (decide (v.1 < read_percent), v.2)

/-- The offset of the n-th submission a worker issues (0-indexed), with the
generator state after it.  The offset variable of IoWorker::run starts at 0
and is advanced BEFORE each push (worker.rs initial fill lines 252-270 and
refill lines 463-505; the sequential-read fast path inlines the same advance
formula as IoPattern::next_offset), so the first submission already carries
next_offset(0). -/
def issuedOffset (p : IoPattern) (r : Rng) : Nat → Nat × Rng
  | 0 => p.next_offset 0 r
  | n + 1 => p.next_offset (issuedOffset p r n).1 (issuedOffset p r n).2

/-- WorkerStats (src/io/worker.rs lines 12-21): the seven u64 atomics. -/
structure WorkerStats where
  bytes_read : Nat
  bytes_written : Nat
  ops_completed : Nat
  ops_failed : Nat
  total_latency_ns : Nat
  min_latency_ns : Nat
  max_latency_ns : Nat
deriving DecidableEq, Repr

/-- WorkerStats::new (worker.rs lines 24-29): zeros, except min_latency_ns
initialised to u64::MAX. -/
def WorkerStats.new : WorkerStats :=
  { bytes_read := 0, bytes_written := 0, ops_completed := 0, ops_failed := 0,
    total_latency_ns := 0, min_latency_ns := U64MAX, max_latency_ns := 0 }

/-- WorkerStats::record_op (worker.rs lines 31-69): adds bytes to the read
or written counter, increments ops_completed, adds the latency to the total,
and lowers min / raises max through the compare-and-swap retry loops, whose
single-producer effect is the conditional store written here. -/
def WorkerStats.record_op (s : WorkerStats) (bytes latency_ns : Nat) (is_read : Bool) :
    WorkerStats :=
  let s1 :=
    if is_read then { s with bytes_read := (s.bytes_read + bytes) % U64 }
    else { s with bytes_written := (s.bytes_written + bytes) % U64 }
  let s2 := { s1 with ops_completed := (s1.ops_completed + 1) % U64,
                      total_latency_ns := (s1.total_latency_ns + latency_ns) % U64 }
  let s3 :=
    if latency_ns < s2.min_latency_ns then { s2 with min_latency_ns := latency_ns } else s2
  if latency_ns > s3.max_latency_ns then { s3 with max_latency_ns := latency_ns } else s3

/-- A reaped completion-queue entry: the kernel result (negative = failure,
otherwise the byte count) and the clock reading the worker would take if the
completion falls on the latency-sampling boundary. -/
structure Cqe where
  result : Int
  now : Nat

/-- The mutable locals of one pass of the completion-drain loop of
IoWorker::run (worker.rs lines 361-421): the shared stats, op_counter, the
completed_count of this drain, pending_ops, and the four local batch
accumulators folded into the atomics afterwards. -/
structure DrainVars where
  stats : WorkerStats
  opCounter : Nat
  completedCount : Nat
  pendingOps : Nat
  batchBytesRead : Nat
  batchBytesWritten : Nat
  batchOps : Nat
  batchFailed : Nat
deriving Repr

/-- Fresh drain state of a worker right after the initial fill: new stats,
op_counter 0, the given number of operations pending. -/
def DrainVars.init (pending : Nat) : DrainVars :=
  { stats := WorkerStats.new, opCounter := 0, completedCount := 0, pendingOps := pending,
    batchBytesRead := 0, batchBytesWritten := 0, batchOps := 0, batchFailed := 0 }

/-- One iteration of the for-cqe loop of the main drain (worker.rs lines
371-421).  Success with op_counter on the sampling boundary: look up
(timestamp, is_read) in the circular record at (head + completed_count) mod
capacity, call record_op with the elapsed latency, and ALSO add the op to
batch_ops.  Success off the boundary: add bytes to the local batch (reading
is_read from the record unless on the sequential-read fast path) and add the
op to batch_ops.  Failure: add to batch_failed.  Every entry bumps
completed_count and drops pending_ops. -/
def drainOne (isSeqReads : Bool) (K capacity head : Nat) (ring : List (Nat × Bool))
    (v : DrainVars) (c : Cqe) : DrainVars :=
  if 0 ≤ c.result then
    let bytes := c.result.toNat
    let track := v.opCounter % K = 0
    let v1 := { v with opCounter := (v.opCounter + 1) % U64 }
    if track then
      let idx := (head + v1.completedCount) % capacity
      let rec0 := ring.getD idx (0, true)
      let latency_ns := c.now - rec0.1
      { v1 with stats := v1.stats.record_op bytes latency_ns rec0.2,
                batchOps := v1.batchOps + 1,
                completedCount := v1.completedCount + 1,
                pendingOps := v1.pendingOps - 1 }
    else if isSeqReads then
      { v1 with batchBytesRead := v1.batchBytesRead + bytes,
                batchOps := v1.batchOps + 1,
                completedCount := v1.completedCount + 1,
                pendingOps := v1.pendingOps - 1 }
    else
      let idx := (head + v1.completedCount) % capacity
      let is_read := (ring.getD idx (0, true)).2
      if is_read then
        { v1 with batchBytesRead := v1.batchBytesRead + bytes,
                  batchOps := v1.batchOps + 1,
                  completedCount := v1.completedCount + 1,
                  pendingOps := v1.pendingOps - 1 }
      else
        { v1 with batchBytesWritten := v1.batchBytesWritten + bytes,
                  batchOps := v1.batchOps + 1,
                  completedCount := v1.completedCount + 1,
                  pendingOps := v1.pendingOps - 1 }
  else
    { v with batchFailed := v.batchFailed + 1,
             completedCount := v.completedCount + 1,
             pendingOps := v.pendingOps - 1 }

/-- The per-batch fold of the local accumulators into the shared atomics
(worker.rs lines 423-443): each positive accumulator is fetch-added to its
counter. -/
def foldBatch (v : DrainVars) : WorkerStats :=
  let s := v.stats
  let s :=
    if 0 < v.batchBytesRead then { s with bytes_read := (s.bytes_read + v.batchBytesRead) % U64 }
    else s
  let s :=
    if 0 < v.batchBytesWritten then
      { s with bytes_written := (s.bytes_written + v.batchBytesWritten) % U64 }
    else s
  let s :=
    if 0 < v.batchOps then { s with ops_completed := (s.ops_completed + v.batchOps) % U64 }
    else s
  if 0 < v.batchFailed then { s with ops_failed := (s.ops_failed + v.batchFailed) % U64 } else s

/-- One full drain pass over the available completions, ending with the batch
fold into the shared stats. -/
def drainCompletions (isSeqReads : Bool) (K capacity head : Nat) (ring : List (Nat × Bool))
    (v0 : DrainVars) (cqes : List Cqe) : DrainVars :=
  let v := cqes.foldl (drainOne isSeqReads K capacity head ring) v0
  { v with stats := foldBatch v,
           batchBytesRead := 0, batchBytesWritten := 0, batchOps := 0, batchFailed := 0 }

/-- BenchmarkResults (src/io/engine.rs lines 15-28), the f64 rates as exact
rationals and the Duration as rational seconds. -/
structure BenchmarkResults where
  total_bytes_read : Nat
  total_bytes_written : Nat
  total_ops : Nat
  failed_ops : Nat
  duration_secs : ℚ
  throughput_read_mbps : ℚ
  throughput_write_mbps : ℚ
  iops : ℚ
  avg_latency_us : ℚ
  min_latency_us : ℚ
  max_latency_us : ℚ
deriving DecidableEq, Repr

/-- The aggregation at the end of IoEngine::run (engine.rs lines 168-227):
sum the per-worker byte, op and latency counters, fold min and max from
u64::MAX and 0, then derive the rates from the configured duration.  The
ops_failed counters are never read: the record is returned with the literal
failed_ops value 0 of line 218.  avg_latency_us is the u64 integer quotient
total_latency_ns / total_ops, then divided by 1000. -/
def aggregate (workers : List WorkerStats) (duration_secs : ℚ) : BenchmarkResults :=
  let tbr := workers.foldl (fun a s => (a + s.bytes_read) % U64) 0
  let tbw := workers.foldl (fun a s => (a + s.bytes_written) % U64) 0
  let tops := workers.foldl (fun a s => (a + s.ops_completed) % U64) 0
  let tlat := workers.foldl (fun a s => (a + s.total_latency_ns) % U64) 0
  let minns := workers.foldl (fun a s => if s.min_latency_ns < a then s.min_latency_ns else a) U64MAX
  let maxns := workers.foldl (fun a s => if s.max_latency_ns > a then s.max_latency_ns else a) 0
  { total_bytes_read := tbr
    total_bytes_written := tbw
    total_ops := tops
    failed_ops := 0
    duration_secs := duration_secs
    throughput_read_mbps := ((tbr : ℚ) / duration_secs) / (1024 * 1024)
    throughput_write_mbps := ((tbw : ℚ) / duration_secs) / (1024 * 1024)
    iops := (tops : ℚ) / duration_secs
    avg_latency_us := if 0 < tops then ((tlat / tops : Nat) : ℚ) / 1000 else 0
    min_latency_us := (minns : ℚ) / 1000
    max_latency_us := (maxns : ℚ) / 1000 }

/-- Largest finite f64 value, exactly: the initial min_latency_us of the
combined record of run_all_workloads. -/
def f64MAX : ℚ := 2 ^ 1024 - 2 ^ 971

/-- The zeroed combined record run_all_workloads starts from (engine.rs
lines 240-252). -/
def combineInit : BenchmarkResults :=
  { total_bytes_read := 0, total_bytes_written := 0, total_ops := 0, failed_ops := 0,
    duration_secs := 0, throughput_read_mbps := 0, throughput_write_mbps := 0, iops := 0,
    avg_latency_us := 0, min_latency_us := f64MAX, max_latency_us := 0 }

/-- One sub-run folded into the combined record (engine.rs lines 262-273):
counts and durations are summed, min and max latency folded. -/
def combineStep (acc r : BenchmarkResults) : BenchmarkResults :=
  { acc with
    total_bytes_read := (acc.total_bytes_read + r.total_bytes_read) % U64
    total_bytes_written := (acc.total_bytes_written + r.total_bytes_written) % U64
    total_ops := (acc.total_ops + r.total_ops) % U64
    failed_ops := (acc.failed_ops + r.failed_ops) % U64
    duration_secs := acc.duration_secs + r.duration_secs
    min_latency_us :=
      if r.min_latency_us < acc.min_latency_us then r.min_latency_us else acc.min_latency_us
    max_latency_us :=
      if r.max_latency_us > acc.max_latency_us then r.max_latency_us else acc.max_latency_us }

/-- The combination of the six sub-runs in IoEngine::run_all_workloads
(engine.rs lines 254-289): fold the sub-run records, then recompute the
rates over the summed duration.  The combined avg_latency_us of lines
282-287 is (total_ops / duration_secs) / 1000 — an ops-per-second quantity,
not a latency. -/
def combineAll (runs : List BenchmarkResults) : BenchmarkResults :=
  let c := runs.foldl combineStep combineInit
  { c with
    throughput_read_mbps := ((c.total_bytes_read : ℚ) / c.duration_secs) / (1024 * 1024)
    throughput_write_mbps := ((c.total_bytes_written : ℚ) / c.duration_secs) / (1024 * 1024)
    iops := (c.total_ops : ℚ) / c.duration_secs
    avg_latency_us :=
      if 0 < c.total_ops then ((c.total_ops : ℚ) / c.duration_secs) / 1000 else 0 }

/-- Device (src/io/device.rs lines 12-16): the opened handle keeps the size
captured at open. -/
structure Device where
  size : Nat
deriving DecidableEq, Repr

/-- Device::open (device.rs lines 20-38), over the outcome of the OS open
and fstat calls (none = the path did not open; some n = it opened and the
file-metadata length is n).  The metadata length is stored as the size
whatever it is: there is no ioctl or sysfs fallback here and no failure on a
zero size.  Device::size (lines 51-53) returns the stored field. -/
def Device.open (openResult : Option Nat) : Option Device :=
  match openResult with
  | none => none
  | some metadata_len => some ⟨metadata_len⟩

/-- One stage of the fallback cascade of Device::get_device_size: if the
probe succeeded with a positive value, return it scaled; otherwise fall
through. -/
def sizeStage (probe : Option Nat) (scale fallthrough : Nat) : Nat :=
  match probe with
  | some s => if 0 < s then s * scale else fallthrough
  | none => fallthrough

/-- Device::get_device_size (device.rs lines 152-209), the size probe of
list_devices (NOT called by Device::open): sysfs class sectors times 512,
else sysfs block sectors times 512, else the BLKGETSIZE64 ioctl, else the
metadata length, else 0. -/
def get_device_size (classSectors sysSectors ioctlSize metaLen : Option Nat) : Nat :=
  sizeStage classSectors 512 <| sizeStage sysSectors 512 <| sizeStage ioctlSize 1 <|
    sizeStage metaLen 1 0

/-- The buffer index the n-th submission of a worker actually references
(worker.rs lines 279-339 and 508-577): with fixed buffers AND the fixed file
both registered, the fixed opcode points at buffers[next_buf_index mod
queue_depth] and next_buf_index advances, so the n-th submission since start
uses n mod queue_depth; on any other combination the standard opcode always
points at buffers[0]. -/
def submissionBuffer (useFixedBuffers useFixedFiles : Bool) (queueDepth n : Nat) : Nat :=
  if useFixedBuffers && useFixedFiles then n % queueDepth else 0

/-- The buffers referenced by the initial fill (worker.rs lines 252-345): it
pushes queue_depth submissions and only then calls submit, so all of them
are in flight with the kernel at once. -/
def initialFillBuffers (ufb uff : Bool) (qd : Nat) : List Nat :=
  (List.range qd).map (submissionBuffer ufb uff qd)

/-- Stats of a worker at queue depth 128 (record capacity 256) after one
drain of 100 successful 4096-byte completions whose sampled member — the
first, op_counter 0 — took 100000 ns: only that one reaches record_op, so
total_latency_ns holds one latency while ops_completed counts them all (and
the sampled one twice). -/
def c8DrainedStats : WorkerStats :=
  (drainCompletions true 100 256 0 (List.replicate 256 (0, true)) (DrainVars.init 128)
    (List.replicate 100 ⟨4096, 100000⟩)).stats

/-- Stats of a worker whose every completion went through record_op — the
situation of the termination drain (worker.rs lines 607-629), where each
reaped completion is recorded with its latency; each list entry is (bytes,
latency_ns, is_read). -/
def recordedStats (ops : List (Nat × Nat × Bool)) : WorkerStats :=
  ops.foldl (fun a o => a.record_op o.1 o.2.1 o.2.2) WorkerStats.new

/-- C1: the claim states every next_offset result is a multiple of the
logical sector size because random draws are rounded down to the alignment.
The Random arm performs no rounding: with block 4096 on a 40960-byte device,
a raw draw of 1 (inside the uniform range) is returned as offset 1, which is
not a multiple of 512, let alone 4096, though it does lie within
[0, device_size - block_size]. -/
theorem c1_random_offset_unaligned :
    (IoPattern.next_offset ⟨IoMode.Random, 4096, 40960⟩ 0 ⟨fun _ => 1, 0⟩).1 = 1 ∧
    ¬ (512 ∣ (IoPattern.next_offset ⟨IoMode.Random, 4096, 40960⟩ 0 ⟨fun _ => 1, 0⟩).1) ∧
    (IoPattern.next_offset ⟨IoMode.Random, 4096, 40960⟩ 0 ⟨fun _ => 1, 0⟩).1 ≤ 40960 - 4096 := by
  decide

/-- C2: the claim states no two concurrently in-flight operations share a
buffer on either submission path.  On the fallback path every submission
references buffers[0]: the initial fill at queue depth 2 puts two operations
in flight that both use buffer 0 (so the buffer list is not duplicate-free),
while the doubly-registered path does round-robin over distinct buffers. -/
theorem c2_fallback_shares_buffer :
    initialFillBuffers false false 2 = [0, 0] ∧
    ¬ (initialFillBuffers false false 2).Nodup ∧
    initialFillBuffers true true 2 = [0, 1] := by
  decide

/-- C3: the claim states the failed-ops count of the returned
BenchmarkResults equals the sum of the workers ops_failed counters.  The
aggregation returns the literal 0 for every input — the ops_failed atomics
are never read — so a worker with five failures still reports zero. -/
theorem c3_failed_ops_dropped :
    (∀ workers d, (aggregate workers d).failed_ops = 0) ∧
    (aggregate [{ WorkerStats.new with ops_failed := 5 }] 1).failed_ops = 0 := by
  exact ⟨fun _ _ => rfl, rfl⟩

/-- C4: the claim states each successful completion bumps ops_completed by
exactly one, sampled or not.  A completion on the sampling boundary is
counted twice — once inside record_op and once more through batch_ops — so
one successful completion of a fresh worker (op_counter 0, hence sampled)
leaves ops_completed at 2, and a second, unsampled one moves it to 3. -/
theorem c4_sampled_op_double_counted :
    (drainCompletions false 100 16 0 (List.replicate 16 (1000, true)) (DrainVars.init 8)
        [⟨4096, 5000⟩]).stats.ops_completed = 2 ∧
    (drainCompletions false 100 16 0 (List.replicate 16 (1000, true)) (DrainVars.init 8)
        [⟨4096, 5000⟩, ⟨4096, 6000⟩]).stats.ops_completed = 3 := by
  decide

/-- C6: the claim states open fails when the size cannot be determined and
size() falls back to the ioctl and sysfs probes instead of returning a zero
metadata length.  Device::open stores the fstat length unchecked: a block
device whose metadata length is 0 opens fine and size() returns 0, even
though the sysfs probe of get_device_size (wired only into list_devices)
would have produced 80 sectors * 512 = 40960 for the same device. -/
theorem c6_open_keeps_zero_size :
    ((Device.open (some 0)).map fun d => d.size) = some 0 ∧
    get_device_size (some 80) none none none = 40960 := by
  decide

/-- C9 counterexample: the claim states that at read_percent 100 the
pseudo-random source state is unchanged by the is_read call.  It is not:
is_read always locks and consults the generator, whose position advances
from 0 to 1. -/
theorem c9_counterexample :
    ((⟨IoMode.Random, 4096, 40960⟩ : IoPattern).is_read 100 ⟨fun _ => 0, 0⟩).2.pos ≠
      (⟨fun _ => 0, 0⟩ : Rng).pos := by
  decide

/-- C9 amended: is_read(read_percent) returns the comparison draw <
read_percent of a uniform draw in [0, 100), hence true with probability
read_percent / 100; at 100 it returns true and at 0 it returns false — but
the generator is consulted, and its state advances, on every call. -/
theorem c9_is_read_amended (p : IoPattern) (r : Rng) :
    (p.is_read 100 r).1 = true ∧ (p.is_read 0 r).1 = false ∧
    ∀ k, (p.is_read k r).2.pos = r.pos + 1 := by
  refine ⟨?_, ?_, fun k => rfl⟩
  · simp [IoPattern.is_read, Rng.genRangeLt]
    exact Nat.mod_lt _ (by norm_num)
  · simp [IoPattern.is_read, Rng.genRangeLt]

/-- C10 counterexample: the claim states the sequential stream of scenario
S1 (block 4096, device 40960) begins at offset 0.  The offset variable is
advanced before the first submission, so the first issued offset is 4096. -/
theorem c10_counterexample :
    (issuedOffset ⟨IoMode.Sequential, 4096, 40960⟩ ⟨fun _ => 0, 0⟩ 0).1 ≠ 0 := by
  decide

/-- C10 amended: in scenario S1 the first ten issued offsets are 4096, 8192,
..., 36864, 0 — every valid offset exactly once per ten-op period, but the
stream begins at 4096 and issues 0 last, after which the next submission
starts the cycle again at 4096. -/
theorem c10_sequential_stream_amended :
    ((List.range 10).map fun n =>
        (issuedOffset ⟨IoMode.Sequential, 4096, 40960⟩ ⟨fun _ => 0, 0⟩ n).1) =
      [4096, 8192, 12288, 16384, 20480, 24576, 28672, 32768, 36864, 0] ∧
    (issuedOffset ⟨IoMode.Sequential, 4096, 40960⟩ ⟨fun _ => 0, 0⟩ 10).1 = 4096 := by
  decide

/-- Helper: one next_offset step preserves the issued-offset invariant. -/
theorem next_offset_preserves_bound (p : IoPattern) (cur : Nat) (r : Rng)
    (hmode : p.mode ≠ IoMode.Mixed)
    (hdvd : p.block_size ∣ p.device_size) (hle : p.block_size ≤ p.device_size)
    (hfit : p.device_size < U64)
    (hcur : cur + p.block_size ≤ p.device_size)
    (hcurdvd : p.mode = IoMode.Sequential → p.block_size ∣ cur) :
    (p.next_offset cur r).1 + p.block_size ≤ p.device_size ∧
      (p.mode = IoMode.Sequential → p.block_size ∣ (p.next_offset cur r).1) := by
  cases hm : p.mode with
  | Sequential =>
      have hmod : (cur + p.block_size) % U64 = cur + p.block_size :=
        Nat.mod_eq_of_lt (lt_of_le_of_lt hcur hfit)
      have hdc : p.block_size ∣ cur := hcurdvd hm
      simp only [IoPattern.next_offset, hm, hmod]
      by_cases hge : p.device_size ≤ cur + p.block_size
      · simp only [if_pos hge]
        exact ⟨by omega, fun _ => dvd_zero _⟩
      · have hlt : cur + p.block_size < p.device_size := by omega
        have hdnext : p.block_size ∣ cur + p.block_size := dvd_add hdc dvd_rfl
        have hgap : p.block_size ∣ p.device_size - (cur + p.block_size) :=
          Nat.dvd_sub' hdvd hdnext
        have hgap2 : p.block_size ≤ p.device_size - (cur + p.block_size) := by
          rcases Nat.eq_zero_or_pos p.block_size with hb0 | hb0
          · omega
          · exact Nat.le_of_dvd (by omega) hgap
        simp only [if_neg hge]
        exact ⟨by omega, fun _ => hdnext⟩
  | Random =>
      simp only [IoPattern.next_offset, hm, Rng.genRangeIncl]
      constructor
      · have hm1 : r.stream r.pos % (p.device_size - p.block_size + 1) <
            p.device_size - p.block_size + 1 := Nat.mod_lt _ (by omega)
        omega
      · intro h
        exact absurd h (by decide)
  | Mixed => exact absurd hm hmode

/-- Helper: every issued offset satisfies the invariant. -/
theorem issuedOffset_invariant (p : IoPattern) (r : Rng)
    (hmode : p.mode ≠ IoMode.Mixed)
    (hdvd : p.block_size ∣ p.device_size) (hle : p.block_size ≤ p.device_size)
    (hfit : p.device_size < U64) :
    ∀ n, (issuedOffset p r n).1 + p.block_size ≤ p.device_size ∧
      (p.mode = IoMode.Sequential → p.block_size ∣ (issuedOffset p r n).1) := by
  intro n
  induction n with
  | zero =>
      exact next_offset_preserves_bound p 0 r hmode hdvd hle hfit
        (by omega) (fun _ => dvd_zero _)
  | succ n ih =>
      exact next_offset_preserves_bound p (issuedOffset p r n).1 (issuedOffset p r n).2
        hmode hdvd hle hfit ih.1 ih.2

/-- C5 counterexample: the claim states offset + block_size ≤ device_size
even when device_size is not a multiple of block_size.  With block 4096 on a
10000-byte device the second issued sequential offset is 8192, and
8192 + 4096 = 12288 exceeds 10000: the wrap fires only once the NEXT offset
reaches device_size, not before an operation would extend past the end. -/
theorem c5_counterexample :
    (issuedOffset ⟨IoMode.Sequential, 4096, 10000⟩ ⟨fun _ => 0, 0⟩ 1).1 = 8192 ∧
    10000 < (issuedOffset ⟨IoMode.Sequential, 4096, 10000⟩ ⟨fun _ => 0, 0⟩ 1).1 + 4096 := by
  decide

/-- C5 amended: when block_size divides device_size (with block_size ≤
device_size and device_size a u64 value), every offset issued by a worker in
Sequential or Random mode satisfies offset + block_size ≤ device_size;
without the divisibility the sequential stream only guarantees
offset < device_size. -/
theorem c5_offset_bound_amended (p : IoPattern) (r : Rng) (n : Nat)
    (hmode : p.mode ≠ IoMode.Mixed)
    (hdvd : p.block_size ∣ p.device_size) (hle : p.block_size ≤ p.device_size)
    (hfit : p.device_size < U64) :
    (issuedOffset p r n).1 + p.block_size ≤ p.device_size :=
  (issuedOffset_invariant p r hmode hdvd hle hfit n).1

/-- Witness for C5 amended at scenario S1 values: block 4096, device 40960,
third issued offset. -/
theorem c5_offset_bound_witness :
    (issuedOffset ⟨IoMode.Sequential, 4096, 40960⟩ ⟨fun _ => 0, 0⟩ 3).1 + 4096 ≤ 40960 :=
  c5_offset_bound_amended ⟨IoMode.Sequential, 4096, 40960⟩ ⟨fun _ => 0, 0⟩ 3
    (by decide) (by decide) (by decide) (by decide)

/-- C7: the claim states the combined mean latency of the All meta-workload
is the summed per-run latency totals over the summed ops.  The source
instead computes (total_ops / duration_secs) / 1000 — ops per second scaled,
not a latency: two sub-runs of 600 ops / 600000 ns and 400 ops / 4000000 ns
over one second each combine to an avg_latency_us of 0.5, while the formula
of the claim gives 4.6 µs. -/
theorem c7_all_avg_latency_is_iops_based :
    (combineAll
        [aggregate [{ WorkerStats.new with ops_completed := 600, total_latency_ns := 600000 }] 1,
         aggregate [{ WorkerStats.new with ops_completed := 400, total_latency_ns := 4000000 }] 1]).avg_latency_us
      = 1 / 2 ∧
    ((600000 + 4000000 : ℚ) / (600 + 400)) / 1000 = 23 / 5 ∧
    ((1 : ℚ) / 2) ≠ 23 / 5 := by
  refine ⟨?_, by norm_num, by norm_num⟩
  norm_num [combineAll, combineStep, combineInit, aggregate, WorkerStats.new, f64MAX, U64, U64MAX]

set_option maxRecDepth 4000 in
/-- Helper: the drained-stats scenario evaluated. -/
theorem c8DrainedStats_value :
    c8DrainedStats =
      { bytes_read := 409600, bytes_written := 0, ops_completed := 101, ops_failed := 0,
        total_latency_ns := 100000, min_latency_ns := 100000, max_latency_ns := 100000 } := by
  decide

/-- C8 counterexample: the claim states min_latency_us ≤ avg_latency_us
whenever ops_completed > 0.  With 1-in-100 sampling, a worker that completes
100 successful operations records only the first (latency 100000 ns) while
ops_completed reaches 101, so aggregation reports min_latency_us = 100 but
avg_latency_us = (100000 / 101) / 1000 < 1: the average over all completed
ops of a latency total summed only over sampled ops undercuts the minimum. -/
theorem c8_counterexample :
    0 < (aggregate [c8DrainedStats] 1).total_ops ∧
    ¬ ((aggregate [c8DrainedStats] 1).min_latency_us ≤
        (aggregate [c8DrainedStats] 1).avg_latency_us) := by
  rw [c8DrainedStats_value]
  constructor
  · norm_num [aggregate, U64, U64MAX]
  · norm_num [aggregate, U64, U64MAX]

/-- Helper: the fields of record_op when no u64 counter wraps. -/
theorem record_op_fields (s : WorkerStats) (bytes latency_ns : Nat) (is_read : Bool)
    (hops : s.ops_completed + 1 < U64) (htot : s.total_latency_ns + latency_ns < U64) :
    (s.record_op bytes latency_ns is_read).ops_completed = s.ops_completed + 1 ∧
    (s.record_op bytes latency_ns is_read).total_latency_ns = s.total_latency_ns + latency_ns ∧
    (s.record_op bytes latency_ns is_read).min_latency_ns = Nat.min s.min_latency_ns latency_ns ∧
    (s.record_op bytes latency_ns is_read).max_latency_ns = Nat.max s.max_latency_ns latency_ns := by
  have h1 : (s.ops_completed + 1) % U64 = s.ops_completed + 1 := Nat.mod_eq_of_lt hops
  have h2 : (s.total_latency_ns + latency_ns) % U64 = s.total_latency_ns + latency_ns :=
    Nat.mod_eq_of_lt htot
  simp only [WorkerStats.record_op]
  cases is_read <;>
    by_cases h3 : latency_ns < s.min_latency_ns <;>
    by_cases h4 : s.max_latency_ns < latency_ns <;>
    simp_all [Nat.min_def, Nat.max_def] <;>
    first | omega | (split_ifs <;> simp_all <;> omega)

/-- Helper: a fold of record_op calls sums ops and latencies and folds min
and max, when no counter wraps. -/
theorem fold_record_op_fields (l : List (Nat × Nat × Bool)) :
    ∀ s : WorkerStats,
      s.ops_completed + l.length < U64 →
      s.total_latency_ns + (l.map fun o => o.2.1).sum < U64 →
      (l.foldl (fun a o => a.record_op o.1 o.2.1 o.2.2) s).ops_completed
          = s.ops_completed + l.length ∧
      (l.foldl (fun a o => a.record_op o.1 o.2.1 o.2.2) s).total_latency_ns
          = s.total_latency_ns + (l.map fun o => o.2.1).sum ∧
      (l.foldl (fun a o => a.record_op o.1 o.2.1 o.2.2) s).min_latency_ns
          = (l.map fun o => o.2.1).foldl Nat.min s.min_latency_ns ∧
      (l.foldl (fun a o => a.record_op o.1 o.2.1 o.2.2) s).max_latency_ns
          = (l.map fun o => o.2.1).foldl Nat.max s.max_latency_ns := by
  induction l with
  | nil => intro s h1 h2; simp
  | cons x xs ih =>
      intro s h1 h2
      simp only [List.length_cons, List.map_cons, List.sum_cons] at h1 h2
      have hops : s.ops_completed + 1 < U64 := by omega
      have htot : s.total_latency_ns + x.2.1 < U64 := by omega
      obtain ⟨e1, e2, e3, e4⟩ := record_op_fields s x.1 x.2.1 x.2.2 hops htot
      have hrec := ih (s.record_op x.1 x.2.1 x.2.2) (by rw [e1]; omega) (by rw [e2]; omega)
      simp only [List.foldl_cons, List.map_cons, List.sum_cons, List.length_cons]
      rw [hrec.1, hrec.2.1, hrec.2.2.1, hrec.2.2.2, e1, e2, e3, e4]
      exact ⟨by omega, by omega, rfl, rfl⟩

/-- Helper: a min fold is below its seed. -/
theorem foldl_min_le_init (l : List Nat) : ∀ a, l.foldl Nat.min a ≤ a := by
  induction l with
  | nil => intro a; simp
  | cons x xs ih => intro a; exact le_trans (ih (Nat.min a x)) (Nat.min_le_left a x)

/-- Helper: a min fold is below every member. -/
theorem foldl_min_le_of_mem (l : List Nat) : ∀ a x, x ∈ l → l.foldl Nat.min a ≤ x := by
  induction l with
  | nil => intro a x hx; cases hx
  | cons y ys ih =>
      intro a x hx
      rcases List.mem_cons.1 hx with h | h
      · subst h; exact le_trans (foldl_min_le_init ys (Nat.min a x)) (Nat.min_le_right a x)
      · exact ih (Nat.min a y) x h

/-- Helper: a max fold is above its seed. -/
theorem init_le_foldl_max (l : List Nat) : ∀ a, a ≤ l.foldl Nat.max a := by
  induction l with
  | nil => intro a; simp
  | cons x xs ih => intro a; exact le_trans (Nat.le_max_left a x) (ih (Nat.max a x))

/-- Helper: a max fold is above every member. -/
theorem mem_le_foldl_max (l : List Nat) : ∀ a x, x ∈ l → x ≤ l.foldl Nat.max a := by
  induction l with
  | nil => intro a x hx; cases hx
  | cons y ys ih =>
      intro a x hx
      rcases List.mem_cons.1 hx with h | h
      · subst h; exact le_trans (Nat.le_max_right a x) (init_le_foldl_max ys (Nat.max a x))
      · exact ih (Nat.max a y) x h

/-- Helper: a lower bound on the members bounds the sum from below. -/
theorem length_mul_le_sum (l : List Nat) (m : Nat) (h : ∀ x ∈ l, m ≤ x) :
    l.length * m ≤ l.sum := by
  induction l with
  | nil => simp
  | cons x xs ih =>
      simp only [List.length_cons, List.sum_cons]
      have hx := h x (List.mem_cons_self x xs)
      have := ih (fun y hy => h y (List.mem_cons_of_mem x hy))
      calc (xs.length + 1) * m = xs.length * m + m := by ring
        _ ≤ xs.sum + x := by omega
        _ = x + xs.sum := by omega

/-- Helper: an upper bound on the members bounds the sum from above. -/
theorem sum_le_length_mul (l : List Nat) (M : Nat) (h : ∀ x ∈ l, x ≤ M) :
    l.sum ≤ l.length * M := by
  induction l with
  | nil => simp
  | cons x xs ih =>
      simp only [List.length_cons, List.sum_cons]
      have hx := h x (List.mem_cons_self x xs)
      have := ih (fun y hy => h y (List.mem_cons_of_mem x hy))
      calc x + xs.sum ≤ M + xs.length * M := by omega
        _ = (xs.length + 1) * M := by ring

/-- C8 amended: min_latency_us ≤ avg_latency_us ≤ max_latency_us does hold
at aggregation whenever every completed operation was latency-sampled, i.e.
the stats are a nonempty sequence of record_op calls (as in the termination
drain) whose count and latency total fit in a u64; with the 1-in-K sampling
of the main loop the average can undercut the minimum, as the
counterexample shows. -/
theorem c8_latency_order_amended (ops : List (Nat × Nat × Bool)) (d : ℚ)
    (hne : ops ≠ []) (hlen : ops.length < U64)
    (hsum : (ops.map fun o => o.2.1).sum < U64) :
    (aggregate [recordedStats ops] d).min_latency_us ≤
        (aggregate [recordedStats ops] d).avg_latency_us ∧
      (aggregate [recordedStats ops] d).avg_latency_us ≤
        (aggregate [recordedStats ops] d).max_latency_us := by
  have hpos : 0 < ops.length := List.length_pos.2 hne
  obtain ⟨e1, e2, e3, e4⟩ :=
    fold_record_op_fields ops WorkerStats.new
      (by simpa [WorkerStats.new] using hlen)
      (by simpa [WorkerStats.new] using hsum)
  simp only [show WorkerStats.new.ops_completed = 0 from rfl,
    show WorkerStats.new.total_latency_ns = 0 from rfl,
    show WorkerStats.new.min_latency_ns = U64MAX from rfl,
    show WorkerStats.new.max_latency_ns = 0 from rfl] at e1 e2 e3 e4
  have hops2 : (recordedStats ops).ops_completed = ops.length := by
    rw [recordedStats, e1]; omega
  have htot2 : (recordedStats ops).total_latency_ns = (ops.map fun o => o.2.1).sum := by
    rw [recordedStats, e2]; omega
  have hmin2 : (recordedStats ops).min_latency_ns
      = (ops.map fun o => o.2.1).foldl Nat.min U64MAX := by rw [recordedStats, e3]
  have hmax2 : (recordedStats ops).max_latency_ns
      = (ops.map fun o => o.2.1).foldl Nat.max 0 := by rw [recordedStats, e4]
  have hlenmap : (ops.map fun o => o.2.1).length = ops.length := List.length_map _ _
  have hminle : (ops.map fun o => o.2.1).foldl Nat.min U64MAX ≤ U64MAX :=
    foldl_min_le_init _ _
  have hmul : (ops.map fun o => o.2.1).length * ((ops.map fun o => o.2.1).foldl Nat.min U64MAX)
      ≤ (ops.map fun o => o.2.1).sum :=
    length_mul_le_sum _ _ (foldl_min_le_of_mem _ _)
  have hmul2 : (ops.map fun o => o.2.1).sum
      ≤ (ops.map fun o => o.2.1).length * ((ops.map fun o => o.2.1).foldl Nat.max 0) :=
    sum_le_length_mul _ _ (mem_le_foldl_max _ _)
  have hq1 : (ops.map fun o => o.2.1).foldl Nat.min U64MAX
      ≤ (ops.map fun o => o.2.1).sum / ops.length := by
    rw [Nat.le_div_iff_mul_le hpos]
    calc (ops.map fun o => o.2.1).foldl Nat.min U64MAX * ops.length
        = (ops.map fun o => o.2.1).length * ((ops.map fun o => o.2.1).foldl Nat.min U64MAX) := by
          rw [hlenmap]; ring
      _ ≤ (ops.map fun o => o.2.1).sum := hmul
  have hq2 : (ops.map fun o => o.2.1).sum / ops.length
      ≤ (ops.map fun o => o.2.1).foldl Nat.max 0 := by
    calc (ops.map fun o => o.2.1).sum / ops.length
        ≤ ops.length * ((ops.map fun o => o.2.1).foldl Nat.max 0) / ops.length := by
          apply Nat.div_le_div_right
          calc (ops.map fun o => o.2.1).sum
              ≤ (ops.map fun o => o.2.1).length * ((ops.map fun o => o.2.1).foldl Nat.max 0) :=
                hmul2
            _ = ops.length * ((ops.map fun o => o.2.1).foldl Nat.max 0) := by rw [hlenmap]
      _ = (ops.map fun o => o.2.1).foldl Nat.max 0 := Nat.mul_div_cancel_left _ hpos
  have hmodops : ops.length % U64 = ops.length := Nat.mod_eq_of_lt hlen
  have hmodtot : (ops.map fun o => o.2.1).sum % U64 = (ops.map fun o => o.2.1).sum :=
    Nat.mod_eq_of_lt hsum
  have hifmin : (if (ops.map fun o => o.2.1).foldl Nat.min U64MAX < U64MAX
      then (ops.map fun o => o.2.1).foldl Nat.min U64MAX else U64MAX)
      = (ops.map fun o => o.2.1).foldl Nat.min U64MAX := by split <;> omega
  have hifmax : (if (ops.map fun o => o.2.1).foldl Nat.max 0 > 0
      then (ops.map fun o => o.2.1).foldl Nat.max 0 else 0)
      = (ops.map fun o => o.2.1).foldl Nat.max 0 := by split <;> omega
  simp only [aggregate, List.foldl_cons, List.foldl_nil, Nat.zero_add, hops2, htot2, hmin2,
    hmax2, hmodops, hmodtot, hifmin, hifmax, hpos, if_true]
  constructor
  · gcongr
  · gcongr
    split
    · exact_mod_cast hq2
    · next h =>
        have hx : (((ops.map fun o => o.2.1).foldl Nat.max 0 : Nat) : ℚ) ≤ 0 := not_lt.1 h
        have hx0 : (ops.map fun o => o.2.1).foldl Nat.max 0 = 0 := by
          exact_mod_cast le_antisymm hx (Nat.cast_nonneg _)
        have hy := hq2
        rw [hx0] at hy
        exact_mod_cast hy

/-- Witness for C8 amended: two fully sampled completions of 1000 ns and
3000 ns give min 1 µs, average 2 µs, max 3 µs. -/
theorem c8_latency_order_witness :
    (aggregate [recordedStats [(4096, 1000, true), (4096, 3000, false)]] 1).min_latency_us ≤
        (aggregate [recordedStats [(4096, 1000, true), (4096, 3000, false)]] 1).avg_latency_us ∧
      (aggregate [recordedStats [(4096, 1000, true), (4096, 3000, false)]] 1).avg_latency_us ≤
        (aggregate [recordedStats [(4096, 1000, true), (4096, 3000, false)]] 1).max_latency_us :=
  c8_latency_order_amended [(4096, 1000, true), (4096, 3000, false)] 1
    (by decide) (by decide) (by decide)
